import Mathlib

/-!
Verification development for the video_editor_client_api repository.

The definitions below are shallow embeddings of the TypeScript source:

* the `/single_api` sequential-compile route (segment sorting, the
  active-video fold, the per-segment ffmpeg overlay with its 60 s timeout,
  and the scratch-directory cleanup in the `finally` block);
* the composition job store helpers (`getCurrentSteps`,
  `updateVideoCompositionProgress`) and the `/api/videos/compose` route;
* the `composeVideo` trim-and-concat filter-graph builder;
* the `cleanExpiredVideos` cleanup sweep.

Asynchronous or effectful behaviour (database reads, filesystem calls,
ffmpeg event callbacks) is made explicit: each such interaction point is a
parameter describing the outcome the environment produced, and the
definitions compute exactly what the source code does with that outcome.
-/

/-- Segment kind from the `/single_api` request schema: the `type` field is
`video` or `tts`; any other string falls into the `else` branch of the loop
and is skipped with a warning. -/
inductive SegKind
  | video
  | tts
  | unknown (label : String)
deriving DecidableEq, Repr

/-- One element of the `data` array of a `/single_api` request: `id` is the
numeric ordering key, `base_64` the payload.  The optional `content` field
is informational only and never read by the route, so it is omitted. -/
structure Segment where
  id : Int
  kind : SegKind
  base_64 : String
deriving DecidableEq, Repr

/-- Stable insertion of a segment into an id-sorted list: the new element is
placed after every element whose id is less than or equal to its own.  Used
to embed `data.sort((a, b) => a.id - b.id)`, which ECMAScript requires to be
a stable sort by the comparator. -/
def insertById : List Segment → Segment → List Segment
  | [], x => [x]
  | y :: ys, x => if y.id ≤ x.id then y :: insertById ys x else x :: y :: ys

/-- Embedding of `data.sort((a, b) => a.id - b.id)`: a stable sort of the
segments by ascending `id`. -/
def sortById (data : List Segment) : List Segment :=
  data.foldl insertById []

/-- The video that is "active" at a point of the segment loop: either the
pre-existing `data/default_video.mp4` that `currentVideoPath` is initialised
to, or the temp file holding the decoded bytes of a video-kind segment. -/
inductive ActiveVideo
  | defaultVideo
  | decodedSegment (base_64 : String)
deriving DecidableEq, Repr

/-- One per-tts-segment ffmpeg output (`segment_<i>.mp4`): the overlay of
the tts audio onto the video that was active when the segment was reached,
produced with `-shortest`. -/
structure OverlaySegmentOut where
  video : ActiveVideo
  audio : String
deriving DecidableEq, Repr

/-- One iteration of the `for (const segment of data)` loop of
`/single_api` (src/unnamed/part_000): a video segment replaces
`currentVideoPath` with its decoded file; a tts segment pushes one overlay
output onto `segmentFiles`; an unknown kind only logs a warning. -/
def segmentStep : ActiveVideo × List OverlaySegmentOut → Segment → ActiveVideo × List OverlaySegmentOut
  | (current, outs), seg =>
    match seg.kind with
    | SegKind.video => (ActiveVideo.decodedSegment seg.base_64, outs)
    | SegKind.tts => (current, outs ++ [⟨current, seg.base_64⟩])
    | SegKind.unknown _ => (current, outs)

/-- The whole segment loop: fold `segmentStep` over the (already ordered)
segment list, starting from the given active video and an empty
`segmentFiles` accumulator. -/
def processSegments (init : ActiveVideo) (segs : List Segment) : ActiveVideo × List OverlaySegmentOut :=
  segs.foldl segmentStep (init, [])

/-- Modelled from the spec (section 4.3): the active video after a segment
sequence — every video-kind segment replaces it unconditionally, all other
kinds leave it unchanged. -/
def activeAfter (current : ActiveVideo) : List Segment → ActiveVideo
  | [] => current
  | s :: rest =>
    match s.kind with
    | SegKind.video => activeAfter (ActiveVideo.decodedSegment s.base_64) rest
    | _ => activeAfter current rest

/-- Modelled from the spec (section 4.3): the ordered overlay-output list of
a segment sequence — each tts segment contributes exactly one overlay of its
audio with the video active at that point, in sequence order; video and
unknown segments contribute nothing. -/
def overlaysOf (current : ActiveVideo) : List Segment → List OverlaySegmentOut
  | [] => []
  | s :: rest =>
    match s.kind with
    | SegKind.video => overlaysOf (ActiveVideo.decodedSegment s.base_64) rest
    | SegKind.tts => OverlaySegmentOut.mk current s.base_64 :: overlaysOf current rest
    | SegKind.unknown _ => overlaysOf current rest

/-- Embedding of lines 70-75 of src/unnamed/part_000: `currentVideoPath` is
initialised to the fixed path `data/default_video.mp4`; if that file does
not exist the route throws `Default video not found` (caught by the outer
handler as a 500).  Nothing is synthesized. -/
def initialActiveVideo (defaultVideoExists : Bool) : Except String ActiveVideo :=
  if defaultVideoExists then Except.ok ActiveVideo.defaultVideo
  else Except.error "Default video not found"

/-- The `/single_api` pipeline up to the concat step: sort the submitted
segments by id, require the default video file to exist, then run the
segment loop from the default active video. -/
def singleApiProcess (defaultVideoExists : Bool) (data : List Segment) :
    Except String (ActiveVideo × List OverlaySegmentOut) :=
  match initialActiveVideo defaultVideoExists with
  | Except.error e => Except.error e
  | Except.ok init => Except.ok (processSegments init (sortById data))

/- ---------------------------------------------------------------- -/
/- Per-segment overlay invocation and its 60 s timeout (src/unnamed/part_000,
   lines 100-124).  The invocation awaits a promise settled by the first of:
   the ffmpeg `error` callback, the ffmpeg `end` callback, or a
   `setTimeout(..., 60000)` that rejects with a fixed timeout error.  The
   engine behaviour is abstracted as the first signal ffmpeg emits and the
   millisecond at which it emits it (or no signal at all). -/

/-- What the ffmpeg invocation for one segment does: finish successfully at
time `t` (ms), report an error at time `t`, or never signal. -/
inductive EngineEvent
  | endAt (t : Nat)
  | errorAt (t : Nat) (msg : String)
  | silent
deriving DecidableEq, Repr

/-- Outcome of awaiting one segment-creation promise. -/
inductive SegmentOutcome
  | created
  | ffmpegError (msg : String)
  | timeoutError (msg : String)
deriving DecidableEq, Repr

/-- The per-segment timeout of `setTimeout(..., 60000)`. -/
def segmentTimeoutMs : Nat := 60000

/-- Whether the engine settles the promise strictly before the given
deadline fires. -/
def signalsBefore (e : EngineEvent) (deadline : Nat) : Bool :=
  match e with
  | EngineEvent.endAt t => decide (t < deadline)
  | EngineEvent.errorAt t _ => decide (t < deadline)
  | EngineEvent.silent => false

/-- Embedding of the promise of lines 101-124 of src/unnamed/part_000: the
first settlement wins.  An engine signal before the 60 s timer resolves or
rejects with the ffmpeg error; otherwise the timer rejects with the fixed
message `Timeout en la creación del segmento`. -/
def awaitSegmentCreation (e : EngineEvent) : SegmentOutcome :=
  match e with
  | EngineEvent.endAt t =>
    if t < segmentTimeoutMs then SegmentOutcome.created
    else SegmentOutcome.timeoutError "Timeout en la creación del segmento"
  | EngineEvent.errorAt t msg =>
    if t < segmentTimeoutMs then SegmentOutcome.ffmpegError msg
    else SegmentOutcome.timeoutError "Timeout en la creación del segmento"
  | EngineEvent.silent => SegmentOutcome.timeoutError "Timeout en la creación del segmento"

/- ---------------------------------------------------------------- -/
/- Scratch-directory lifecycle of the `/single_api` route
   (src/unnamed/part_000): `try { body } catch { 500 } finally { await
   cleanupTempDir(tempDir) }`, with `cleanupTempDir` wrapping
   `fs.rmSync(tempDir, { recursive: true, force: true })` in its own
   try/catch that only logs. -/

/-- The three response shapes the `/single_api` handler can send. -/
inductive SingleApiResponse
  | videoPayload (bytes : String)
  | badRequest (msg : String)
  | serverError (msg : String)
deriving DecidableEq, Repr

/-- Embedding of `cleanupTempDir` (src/unnamed/part_000, lines 36-44): the
recursive `rmSync` either succeeds (directory gone) or throws, in which case
the error is caught and logged and the directory stays.  The function is
total: it never re-raises. -/
def cleanupTempDir (dirPresent rmFails : Bool) : Bool :=
  if rmFails then dirPresent else false

/-- The try/catch/finally skeleton of the `/single_api` handler: the body
either produced a response or threw (mapped to a 500 with the error
message by the catch block); the finally block always runs
`cleanupTempDir`.  Returns the response sent and whether the scratch
directory is still present afterwards. -/
def singleApiConclude (body : Except String SingleApiResponse)
    (dirPresent rmFails : Bool) : SingleApiResponse × Bool :=
  (match body with
   | Except.ok r => r
   | Except.error e => SingleApiResponse.serverError e,
   cleanupTempDir dirPresent rmFails)

/- ---------------------------------------------------------------- -/
/- Composition job store helpers (src/src/api/SingleApi.ts, lines
   286-332). -/

/-- What the database read inside `getCurrentSteps` produced: a row with a
stored step list, no row, or a thrown database error. -/
inductive DbRead
  | row (steps : List String)
  | missing
  | failure (msg : String)
deriving DecidableEq, Repr

/-- Embedding of `getCurrentSteps` (SingleApi.ts, lines 286-297): return the
stored list when the row exists, an empty list when it does not, and — via
the catch block — an empty list when the read throws. -/
def getCurrentSteps : DbRead → List String
  | DbRead.row steps => steps
  | DbRead.missing => []
  | DbRead.failure _ => []

/-- Embedding of the merge step of `updateVideoCompositionProgress`
(SingleApi.ts, lines 313-318): when `updates.steps` is supplied and
non-empty, persist `currentSteps.concat(updates.steps)`; otherwise persist
the current list unchanged. -/
def mergeSteps (currentSteps : List String) (updatesSteps : Option (List String)) : List String :=
  match updatesSteps with
  | some ns => if ns.length > 0 then currentSteps ++ ns else currentSteps
  | none => currentSteps

/-- The step log persisted by `updateVideoCompositionProgress`
(SingleApi.ts, lines 303-332) as a function of the read outcome and the
supplied `updates.steps`. -/
def updateVideoCompositionProgress (read : DbRead) (updatesSteps : Option (List String)) : List String :=
  mergeSteps (getCurrentSteps read) updatesSteps

/- ---------------------------------------------------------------- -/
/- The `/api/videos/compose` route of src/src/api/SingleApi.ts (lines
   693-849).  Each numbered phase of the handler can fail; the handler
   returns early with an error response on every failure except the final
   status update, whose catch block only logs. -/

/-- A clip handed to `composeVideo`: a source locator plus the rendered
`start` and `duration` values interpolated into the filter graph (the trim
interval is `[start, start+duration)`). -/
structure Clip where
  src : String
  start : String
  duration : String
deriving DecidableEq, Repr

/-- Response of the `/api/videos/compose` route: 200 with the output path,
a 400 client error, or a 500 server error. -/
inductive RouteResult
  | ok (outputPath : String)
  | clientError (msg : String)
  | serverError (msg : String)
deriving DecidableEq, Repr

/-- Embedding of step 7 of the route (SingleApi.ts, lines 809-827): the
final `updateVideoCompositionProgress` call that records `completed`, the
output path and the expiration is wrapped in a try/catch whose catch block
only logs; either way execution continues to the 200 response carrying the
output path. -/
def finalizeComposition (outputPath : String) (finalUpdate : Except String Unit) : RouteResult :=
  match finalUpdate with
  | Except.ok _ => RouteResult.ok outputPath
  | Except.error _ => RouteResult.ok outputPath

/-- Embedding of the `/api/videos/compose` handler: the outcomes of table
initialisation, folder creation, record creation, clip transformation, the
ffmpeg composition and the final status update are explicit inputs; the
definition reproduces the early returns of the handler and status codes. -/
def composeRoute (tableInit : Except String Unit) (mkdirResult : Except String Unit)
    (createRecord : Except String Unit) (transform : Except String (List Clip))
    (composeResult : Except String String) (finalUpdate : Except String Unit) : RouteResult :=
  match tableInit with
  | Except.error e => RouteResult.serverError e
  | Except.ok _ =>
  match mkdirResult with
  | Except.error e => RouteResult.serverError e
  | Except.ok _ =>
  match createRecord with
  | Except.error e => RouteResult.serverError e
  | Except.ok _ =>
  match transform with
  | Except.error e => RouteResult.clientError e
  | Except.ok clips =>
  if clips.isEmpty then
    RouteResult.clientError "No se encontraron clips de video/audio para procesar."
  else
  match composeResult with
  | Except.error e => RouteResult.clientError e
  | Except.ok outputPath => finalizeComposition outputPath finalUpdate

/- ---------------------------------------------------------------- -/
/- The trim-and-concat filter graph of `composeVideo` (src/src/api/
   SingleApi.ts, lines 499-518; identically src/src/api/VideoAPI.ts, lines
   105-122). -/

/-- The per-clip video filter entry pushed by the `forEach`: trim the
video stream of the clip to `[start, start+duration)` and reset its timestamps
with `setpts=PTS-STARTPTS`. -/
def vTrimFilter (i : Nat) (c : Clip) : String :=
  "[" ++ toString i ++ ":v]trim=start=" ++ c.start ++ ":duration=" ++ c.duration
    ++ ",setpts=PTS-STARTPTS[v" ++ toString i ++ "]"

/-- The per-clip audio filter entry pushed by the `forEach`: trim the
audio stream of the clip to `[start, start+duration)` and reset its timestamps
with `asetpts=PTS-STARTPTS`. -/
def aTrimFilter (i : Nat) (c : Clip) : String :=
  "[" ++ toString i ++ ":a]atrim=start=" ++ c.start ++ ":duration=" ++ c.duration
    ++ ",asetpts=PTS-STARTPTS[a" ++ toString i ++ "]"

/-- Embedding of the `filterInputs` accumulation: for each clip, in index
order, push the video entry then the audio entry. -/
def filterInputs (clips : List Clip) : List String :=
  clips.enum.foldl (fun acc ic => acc ++ [vTrimFilter ic.1 ic.2, aTrimFilter ic.1 ic.2]) []

/-- Embedding of the `videoStreams` loop: the labels `[v0][v1]...`. -/
def videoStreamLabels (n : Nat) : String :=
  (List.range n).foldl (fun s i => s ++ "[v" ++ toString i ++ "]") ""

/-- Embedding of the `audioStreams` loop: the labels `[a0][a1]...`. -/
def audioStreamLabels (n : Nat) : String :=
  (List.range n).foldl (fun s i => s ++ "[a" ++ toString i ++ "]") ""

/-- Embedding of `concatFilter`: the single concat node joining the n
trimmed video streams and the n trimmed audio streams into one output
video stream and one output audio stream. -/
def concatFilterOf (n : Nat) : String :=
  videoStreamLabels n ++ audioStreamLabels n ++ "concat=n=" ++ toString n ++ ":v=1:a=1[outv][outa]"

/-- Embedding of `fullFilter`: the complete filter-graph expression handed
to `complexFilter`. -/
def fullFilter (clips : List Clip) : String :=
  String.intercalate ";" (filterInputs clips ++ [concatFilterOf clips.length])

/-- Declarative filter-graph node, modelled from the spec wording: a video
trim of input `i` to `[start, start+duration)` with timestamps reset, the
analogous audio trim, or the concat node over `n` stream pairs. -/
inductive FilterNode
  | vtrim (i : Nat) (start duration : String)
  | atrim (i : Nat) (start duration : String)
  | concatNode (n : Nat)
deriving DecidableEq, Repr

/-- The ffmpeg text of one declarative filter node. -/
def renderFilterNode : FilterNode → String
  | FilterNode.vtrim i s d => vTrimFilter i (Clip.mk "" s d)
  | FilterNode.atrim i s d => aTrimFilter i (Clip.mk "" s d)
  | FilterNode.concatNode n => concatFilterOf n

/-- Modelled from the spec: the graph contains, for each clip i, one video
trim and one audio trim of `[start, start+duration)` with timestamps reset,
followed by a single concat node over all n clips. -/
def specFilterGraph (clips : List Clip) : List FilterNode :=
  (clips.enum.map (fun ic =>
    [FilterNode.vtrim ic.1 ic.2.start ic.2.duration,
     FilterNode.atrim ic.1 ic.2.start ic.2.duration])).flatten
  ++ [FilterNode.concatNode clips.length]

/- ---------------------------------------------------------------- -/
/- The cleanup sweep `cleanExpiredVideos` (src/src/api/
   video_clean_up_data.ts, lines 13-57). -/

/-- One row of the `video_compositions` table, restricted to the columns
the sweep reads or writes. -/
structure VideoRecord where
  id : Nat
  video_path : Option String
  expiration_time : Option Int
deriving DecidableEq, Repr

/-- The selection query of the sweep: `expiration_time < now` and `video_path`
not null (a null `expiration_time` never satisfies the SQL comparison). -/
def isExpiredRecord (now : Int) (r : VideoRecord) : Bool :=
  match r.expiration_time, r.video_path with
  | some t, some _ => decide (t < now)
  | _, _ => false

/-- The filesystem as the sweep sees it: the set of existing artifact
paths, and the paths whose `unlink` throws (e.g. locked files). -/
structure SweepFS where
  files : List String
  locked : List String
deriving DecidableEq, Repr

/-- One `if (fs.existsSync(p)) await fs.promises.unlink(p)` attempt inside
its try/catch: a throwing unlink is caught and logged, leaving the file. -/
def unlinkAttempt (fs : SweepFS) (p : String) : SweepFS :=
  if fs.locked.contains p then fs else { fs with files := fs.files.erase p }

/-- The update the sweep applies to every selected record regardless of the
deletion outcome: null out `video_path` and `expiration_time`. -/
def clearRecord (r : VideoRecord) : VideoRecord :=
  { r with video_path := none, expiration_time := none }

/-- Processing of one selected record: attempt the deletion when the file
exists (recording the attempt), then clear the record unconditionally.
Returns the new filesystem, the updated record, and the unlink calls
made. -/
def sweepRecord (fs : SweepFS) (r : VideoRecord) : SweepFS × VideoRecord × List String :=
  match r.video_path with
  | some p =>
    if fs.files.contains p then (unlinkAttempt fs p, clearRecord r, [p])
    else (fs, clearRecord r, [])
  | none => (fs, clearRecord r, [])

/-- Embedding of one `cleanExpiredVideos` sweep over the table: records
selected by the query are processed in order; all other records are
untouched.  Returns the filesystem, the table and the list of unlink calls
made. -/
def cleanExpiredVideos (now : Int) (fs : SweepFS) :
    List VideoRecord → SweepFS × List VideoRecord × List String
  | [] => (fs, [], [])
  | r :: rs =>
    if isExpiredRecord now r then
      let step := sweepRecord fs r
      let rest := cleanExpiredVideos now step.1 rs
      (rest.1, step.2.1 :: rest.2.1, step.2.2 ++ rest.2.2)
    else
      let rest := cleanExpiredVideos now fs rs
      (rest.1, r :: rest.2.1, rest.2.2)

/- ---------------------------------------------------------------- -/
/- Helper lemmas. -/

theorem mem_insertById (acc : List Segment) (x z : Segment) :
    z ∈ insertById acc x ↔ z ∈ acc ∨ z = x := by
  induction acc with
  | nil => simp [insertById]
  | cons y ys ih =>
    by_cases hle : y.id ≤ x.id
    · simp only [insertById, if_pos hle, List.mem_cons, ih]
      tauto
    · simp only [insertById, if_neg hle, List.mem_cons]
      tauto

theorem insertById_sorted (acc : List Segment) (x : Segment)
    (h : List.Pairwise (fun a b : Segment => a.id ≤ b.id) acc) :
    List.Pairwise (fun a b : Segment => a.id ≤ b.id) (insertById acc x) := by
  induction acc with
  | nil => simp [insertById]
  | cons y ys ih =>
    rcases List.pairwise_cons.mp h with ⟨hy, hys⟩
    by_cases hle : y.id ≤ x.id
    · simp only [insertById, if_pos hle]
      refine List.pairwise_cons.mpr ⟨?_, ih hys⟩
      intro z hz
      rcases (mem_insertById ys x z).mp hz with hz2 | hzx
      · exact hy z hz2
      · subst hzx; exact hle
    · simp only [insertById, if_neg hle]
      refine List.pairwise_cons.mpr ⟨?_, h⟩
      intro z hz
      rcases List.mem_cons.mp hz with hzy | hz2
      · subst hzy; omega
      · exact le_trans (by omega) (hy z hz2)

theorem sortById_go_sorted (data acc : List Segment)
    (h : List.Pairwise (fun a b : Segment => a.id ≤ b.id) acc) :
    List.Pairwise (fun a b : Segment => a.id ≤ b.id) (data.foldl insertById acc) := by
  induction data generalizing acc with
  | nil => exact h
  | cons x xs ih => exact ih (insertById acc x) (insertById_sorted acc x h)

theorem sortById_sorted (data : List Segment) :
    List.Pairwise (fun a b : Segment => a.id ≤ b.id) (sortById data) :=
  sortById_go_sorted data [] (List.Pairwise.nil)

theorem filter_insertById (k : Int) (x : Segment) (acc : List Segment)
    (h : List.Pairwise (fun a b : Segment => a.id ≤ b.id) acc) :
    (insertById acc x).filter (fun s => decide (s.id = k))
      = acc.filter (fun s => decide (s.id = k)) ++ (if x.id = k then [x] else []) := by
  induction acc with
  | nil => by_cases hxk : x.id = k <;> simp [insertById, hxk]
  | cons y ys ih =>
    rcases List.pairwise_cons.mp h with ⟨hy, hys⟩
    by_cases hle : y.id ≤ x.id
    · simp only [insertById, if_pos hle, List.filter_cons, ih hys]
      by_cases hyk : y.id = k <;> simp [hyk]
    · have hins : insertById (y :: ys) x = x :: y :: ys := by
        simp [insertById, hle]
      rw [hins, List.filter_cons]
      by_cases hxk : x.id = k
      · have hnil : List.filter (fun s => decide (s.id = k)) (y :: ys) = [] := by
          refine List.filter_eq_nil_iff.mpr ?_
          intro z hz
          rcases List.mem_cons.mp hz with hzy | hz2
          · subst hzy; simp; omega
          · have hyz := hy z hz2; simp; omega
        rw [hnil]
        simp [hxk]
      · simp [hxk]

theorem filter_sortById_go (k : Int) (data : List Segment) :
    ∀ acc : List Segment, List.Pairwise (fun a b : Segment => a.id ≤ b.id) acc →
      (data.foldl insertById acc).filter (fun s => decide (s.id = k))
        = acc.filter (fun s => decide (s.id = k)) ++ data.filter (fun s => decide (s.id = k)) := by
  induction data with
  | nil => intro acc _; simp
  | cons x xs ih =>
    intro acc hacc
    have step := ih (insertById acc x) (insertById_sorted acc x hacc)
    rw [List.foldl_cons, step, filter_insertById k x acc hacc, List.filter_cons]
    by_cases hxk : x.id = k <;> simp [hxk]

theorem sortById_stable (k : Int) (data : List Segment) :
    (sortById data).filter (fun s => decide (s.id = k))
      = data.filter (fun s => decide (s.id = k)) := by
  have h := filter_sortById_go k data [] (List.Pairwise.nil)
  simpa [sortById] using h

theorem foldl_segmentStep_spec (segs : List Segment) :
    ∀ (init : ActiveVideo) (acc : List OverlaySegmentOut),
      segs.foldl segmentStep (init, acc) = (activeAfter init segs, acc ++ overlaysOf init segs) := by
  induction segs with
  | nil => intro init acc; simp [activeAfter, overlaysOf]
  | cons s rest ih =>
    intro init acc
    cases hk : s.kind with
    | video => simp [segmentStep, hk, activeAfter, overlaysOf, ih]
    | tts => simp [segmentStep, hk, activeAfter, overlaysOf, ih]
    | unknown lb => simp [segmentStep, hk, activeAfter, overlaysOf, ih]

theorem processSegments_spec (init : ActiveVideo) (segs : List Segment) :
    processSegments init segs = (activeAfter init segs, overlaysOf init segs) := by
  simpa [processSegments] using foldl_segmentStep_spec segs init []

theorem overlaysOf_map_audio (segs : List Segment) :
    ∀ c : ActiveVideo,
      (overlaysOf c segs).map OverlaySegmentOut.audio
        = (segs.filter (fun s => decide (s.kind = SegKind.tts))).map Segment.base_64 := by
  induction segs with
  | nil => intro c; rfl
  | cons s rest ih =>
    intro c
    cases hk : s.kind with
    | video => simp [overlaysOf, hk, List.filter_cons, ih]
    | tts => simp [overlaysOf, hk, List.filter_cons, ih]
    | unknown lb => simp [overlaysOf, hk, List.filter_cons, ih]

theorem overlaysOf_leading_tts (pre : List Segment) :
    ∀ (c : ActiveVideo) (post : List Segment), (∀ s ∈ pre, s.kind = SegKind.tts) →
      overlaysOf c (pre ++ post)
        = pre.map (fun s => OverlaySegmentOut.mk c s.base_64) ++ overlaysOf c post := by
  induction pre with
  | nil => intro c post _; simp
  | cons s rest ih =>
    intro c post h
    have hs : s.kind = SegKind.tts := h s (List.mem_cons_self s rest)
    have hrest : ∀ z ∈ rest, z.kind = SegKind.tts := fun z hz => h z (List.mem_cons_of_mem s hz)
    simp [overlaysOf, hs, ih c post hrest]

/-- Claim C1: over the id-sorted segment sequence, the `/single_api` loop
threads the active video exactly as §4.3 describes — every video-kind
segment replaces it with the decoded file of that segment (unconditionally,
including the first), tts-kind segments leave it unchanged, and each
tts-kind segment contributes exactly one overlay of its audio with the
active video current at that point; the accumulated (later concatenated)
overlay list carries the audio of the tts segments in sorted id order. -/
theorem claim_C1_sequential_loop (data : List Segment) :
    processSegments ActiveVideo.defaultVideo (sortById data)
        = (activeAfter ActiveVideo.defaultVideo (sortById data),
           overlaysOf ActiveVideo.defaultVideo (sortById data))
      ∧ (overlaysOf ActiveVideo.defaultVideo (sortById data)).map OverlaySegmentOut.audio
          = ((sortById data).filter (fun s => decide (s.kind = SegKind.tts))).map Segment.base_64 :=
  ⟨processSegments_spec ActiveVideo.defaultVideo (sortById data),
   overlaysOf_map_audio (sortById data) ActiveVideo.defaultVideo⟩

/-- Claim C2, counterexample: the code has no SynthesizeBlankVideo
capability.  The initial active video is the pre-existing file
`data/default_video.mp4`; when that file is absent, a narration-only
sequence is rejected with `Default video not found` instead of being
overlaid on a synthesized filler clip. -/
theorem claim_C2_counterexample :
    singleApiProcess false [Segment.mk 0 SegKind.tts "QTE="]
      = Except.error "Default video not found" := rfl

/-- Claim C2, amended: narration (tts) segments that precede the first
video-kind segment are overlaid on the pre-existing default video file
(`data/default_video.mp4`) rather than rejected, provided that file exists;
no blank video is synthesized. -/
theorem claim_C2_default_video (data pre post : List Segment)
    (h : ∀ s ∈ pre, s.kind = SegKind.tts) :
    (∃ result, singleApiProcess true data = Except.ok result)
      ∧ overlaysOf ActiveVideo.defaultVideo (pre ++ post)
          = pre.map (fun s => OverlaySegmentOut.mk ActiveVideo.defaultVideo s.base_64)
            ++ overlaysOf ActiveVideo.defaultVideo post :=
  ⟨⟨processSegments ActiveVideo.defaultVideo (sortById data), rfl⟩,
   overlaysOf_leading_tts pre ActiveVideo.defaultVideo post h⟩

theorem claim_C2_default_video_witness :
    (∀ s ∈ [Segment.mk 1 SegKind.tts "QTE="], s.kind = SegKind.tts)
      ∧ ((∃ result, singleApiProcess true [Segment.mk 1 SegKind.tts "QTE="] = Except.ok result)
          ∧ overlaysOf ActiveVideo.defaultVideo ([Segment.mk 1 SegKind.tts "QTE="] ++ [])
              = [Segment.mk 1 SegKind.tts "QTE="].map
                  (fun s => OverlaySegmentOut.mk ActiveVideo.defaultVideo s.base_64)
                ++ overlaysOf ActiveVideo.defaultVideo []) :=
  ⟨by decide,
   claim_C2_default_video [Segment.mk 1 SegKind.tts "QTE="]
     [Segment.mk 1 SegKind.tts "QTE="] [] (by decide)⟩

/-- Claim C8, counterexample: the sort is stable, so two segments with
equal ids keep the relative order in which they were submitted — submitting
them in reverse order therefore yields the reversed relative order, not the
same one. -/
theorem claim_C8_counterexample :
    (Segment.mk 1 SegKind.tts "QQ==").id = (Segment.mk 1 SegKind.tts "Qg==").id
      ∧ sortById [Segment.mk 1 SegKind.tts "Qg==", Segment.mk 1 SegKind.tts "QQ=="]
          ≠ sortById [Segment.mk 1 SegKind.tts "QQ==", Segment.mk 1 SegKind.tts "Qg=="] := by
  decide

/-- Claim C8, amended: the normalizer sorts the segments by id ascending
with a stable sort — any two segments with equal keys keep their original
relative submission order (so a run that submits equal-key segments in
reverse order observes the reversed relative order, each run preserving its
own submission order). -/
theorem claim_C8_stable_sort (data : List Segment) (k : Int) :
    List.Pairwise (fun a b : Segment => a.id ≤ b.id) (sortById data)
      ∧ (sortById data).filter (fun s => decide (s.id = k))
          = data.filter (fun s => decide (s.id = k)) :=
  ⟨sortById_sorted data, sortById_stable k data⟩

/-- Claim C3: an overlay invocation whose engine emits no completion signal
within the 60 s window fails with the dedicated timeout error, which is a
different outcome from any ffmpeg-reported error, and the await always
yields a definite outcome rather than hanging. -/
theorem claim_C3_timeout (e : EngineEvent)
    (h : signalsBefore e segmentTimeoutMs = false) :
    awaitSegmentCreation e
        = SegmentOutcome.timeoutError "Timeout en la creación del segmento"
      ∧ ∀ msg : String, awaitSegmentCreation e ≠ SegmentOutcome.ffmpegError msg := by
  cases e with
  | endAt t =>
    simp only [signalsBefore, decide_eq_false_iff_not, not_lt] at h
    constructor
    · simp [awaitSegmentCreation, Nat.not_lt.mpr h]
    · intro msg; simp [awaitSegmentCreation, Nat.not_lt.mpr h]
  | errorAt t msg0 =>
    simp only [signalsBefore, decide_eq_false_iff_not, not_lt] at h
    constructor
    · simp [awaitSegmentCreation, Nat.not_lt.mpr h]
    · intro msg; simp [awaitSegmentCreation, Nat.not_lt.mpr h]
  | silent =>
    exact ⟨rfl, fun msg => by simp [awaitSegmentCreation]⟩

theorem claim_C3_timeout_witness :
    signalsBefore EngineEvent.silent segmentTimeoutMs = false
      ∧ (awaitSegmentCreation EngineEvent.silent
            = SegmentOutcome.timeoutError "Timeout en la creación del segmento"
          ∧ ∀ msg : String, awaitSegmentCreation EngineEvent.silent
              ≠ SegmentOutcome.ffmpegError msg) :=
  ⟨rfl, claim_C3_timeout EngineEvent.silent rfl⟩

/-- Claim C5: appending a non-empty step list to an existing job record
persists exactly the previously stored log followed by the new steps —
existing entries, relative order and duplicates are all preserved. -/
theorem claim_C5_append_steps (stored newSteps : List String) (h : newSteps ≠ []) :
    updateVideoCompositionProgress (DbRead.row stored) (some newSteps)
      = stored ++ newSteps := by
  have hlen : newSteps.length > 0 := List.length_pos.mpr h
  simp [updateVideoCompositionProgress, getCurrentSteps, mergeSteps, hlen]

theorem claim_C5_append_steps_witness :
    (["transform_clips_success", "compose_video_success"] : List String) ≠ []
      ∧ updateVideoCompositionProgress
          (DbRead.row ["record_creation_success", "transform_clips_success"])
          (some ["transform_clips_success", "compose_video_success"])
        = ["record_creation_success", "transform_clips_success",
           "transform_clips_success", "compose_video_success"] :=
  ⟨by decide,
   claim_C5_append_steps ["record_creation_success", "transform_clips_success"]
     ["transform_clips_success", "compose_video_success"] (by decide)⟩

/-- Claim C6: for every exit path of the `/single_api` handler (a body
that produced a success, a validation failure, or threw an engine error),
the finally block removes the scratch directory whenever the recursive
removal does not itself fail, and a removal failure leaves the response
untouched — the response never depends on the cleanup outcome. -/
theorem claim_C6_scratch_cleanup (body : Except String SingleApiResponse)
    (dirPresent rmFails : Bool) :
    (singleApiConclude body dirPresent rmFails).2 = (rmFails && dirPresent)
      ∧ (singleApiConclude body dirPresent false).2 = false
      ∧ (singleApiConclude body dirPresent rmFails).1
          = (singleApiConclude body dirPresent false).1 := by
  cases body <;> cases rmFails <;> cases dirPresent <;>
    simp [singleApiConclude, cleanupTempDir]

/-- Claim C9: once `composeVideo` has produced the artifact, a failure of
the final job-store update (recording completed status, output path and
expiration) does not overturn the success response — the route still
returns 200 with the output path for every persistence outcome. -/
theorem claim_C9_persistence_failure (clips : List Clip) (outputPath : String)
    (finalUpdate : Except String Unit) (h : clips ≠ []) :
    composeRoute (Except.ok ()) (Except.ok ()) (Except.ok ())
        (Except.ok clips) (Except.ok outputPath) finalUpdate
      = RouteResult.ok outputPath := by
  have hne : clips.isEmpty = false := by
    cases clips with
    | nil => exact absurd rfl h
    | cons c cs => rfl
  cases finalUpdate <;> simp [composeRoute, hne, finalizeComposition]

theorem claim_C9_persistence_failure_witness :
    ([Clip.mk "http://example.com/video1.mp4" "0" "5"] : List Clip) ≠ []
      ∧ composeRoute (Except.ok ()) (Except.ok ()) (Except.ok ())
          (Except.ok [Clip.mk "http://example.com/video1.mp4" "0" "5"])
          (Except.ok "data/composedVideos/video-1.mp4")
          (Except.error "SQLITE_BUSY")
        = RouteResult.ok "data/composedVideos/video-1.mp4" :=
  ⟨by decide,
   claim_C9_persistence_failure [Clip.mk "http://example.com/video1.mp4" "0" "5"]
     "data/composedVideos/video-1.mp4" (Except.error "SQLITE_BUSY") (by decide)⟩

/-- Claim C10: when the database read inside `getCurrentSteps` fails, the
helper returns an empty list instead of propagating the error, so the
subsequent write persists exactly the newly supplied steps — every
previously recorded step is silently replaced. -/
theorem claim_C10_read_failure (msg : String) (newSteps : List String) :
    getCurrentSteps (DbRead.failure msg) = []
      ∧ updateVideoCompositionProgress (DbRead.failure msg) (some newSteps) = newSteps := by
  refine ⟨rfl, ?_⟩
  cases newSteps with
  | nil => rfl
  | cons s rest => simp [updateVideoCompositionProgress, getCurrentSteps, mergeSteps]

theorem sweepRecord_clears (fs : SweepFS) (r : VideoRecord) :
    (sweepRecord fs r).2.1 = clearRecord r := by
  unfold sweepRecord
  cases r.video_path with
  | none => rfl
  | some p => dsimp only; split <;> rfl

theorem clearRecord_not_expired (now : Int) (r : VideoRecord) :
    isExpiredRecord now (clearRecord r) = false := rfl

theorem cleanExpiredVideos_table (now : Int) (records : List VideoRecord) :
    ∀ fs : SweepFS,
      (cleanExpiredVideos now fs records).2.1
        = records.map (fun r => if isExpiredRecord now r then clearRecord r else r) := by
  induction records with
  | nil => intro fs; rfl
  | cons r rs ih =>
    intro fs
    cases he : isExpiredRecord now r with
    | true => simp [cleanExpiredVideos, he, sweepRecord_clears, ih]
    | false => simp [cleanExpiredVideos, he, ih]

theorem cleanExpiredVideos_of_none_expired (now : Int) (records : List VideoRecord) :
    ∀ fs : SweepFS, (∀ r ∈ records, isExpiredRecord now r = false) →
      cleanExpiredVideos now fs records = (fs, records, []) := by
  induction records with
  | nil => intro fs _; rfl
  | cons r rs ih =>
    intro fs h
    have hr := h r (List.mem_cons_self r rs)
    have hrs : ∀ z ∈ rs, isExpiredRecord now z = false :=
      fun z hz => h z (List.mem_cons_of_mem r hz)
    simp [cleanExpiredVideos, hr, ih fs hrs]

theorem swept_table_not_expired (now : Int) (records : List VideoRecord) :
    ∀ r' ∈ records.map (fun r => if isExpiredRecord now r then clearRecord r else r),
      isExpiredRecord now r' = false := by
  intro r' hr'
  rcases List.mem_map.mp hr' with ⟨r, hr, heq⟩
  cases he : isExpiredRecord now r with
  | true => rw [← heq]; simp [he, clearRecord_not_expired]
  | false => rw [← heq]; simp [he]

/-- Claim C4: one cleanup sweep clears `video_path` and `expiration_time`
of every selected job (expiration in the past, non-null output path)
regardless of how its deletion attempt went, while leaving every other
job untouched; an immediately following sweep with no newly-expired jobs
therefore selects nothing, changes nothing, and performs no deletions. -/
theorem claim_C4_cleanup_sweep (now : Int) (fs : SweepFS) (records : List VideoRecord) :
    (cleanExpiredVideos now fs records).2.1
        = records.map (fun r => if isExpiredRecord now r then clearRecord r else r)
      ∧ cleanExpiredVideos now (cleanExpiredVideos now fs records).1
          ((cleanExpiredVideos now fs records).2.1)
        = ((cleanExpiredVideos now fs records).1,
           (cleanExpiredVideos now fs records).2.1, []) := by
  have htab := cleanExpiredVideos_table now records fs
  refine ⟨htab, ?_⟩
  have hall : ∀ r' ∈ (cleanExpiredVideos now fs records).2.1,
      isExpiredRecord now r' = false := by
    rw [htab]; exact swept_table_not_expired now records
  exact cleanExpiredVideos_of_none_expired now _ _ hall

theorem filterInputs_eq (clips : List Clip) :
    filterInputs clips
      = (clips.enum.map (fun ic => [vTrimFilter ic.1 ic.2, aTrimFilter ic.1 ic.2])).flatten := by
  have h : ∀ (l : List (Nat × Clip)) (acc : List String),
      l.foldl (fun acc ic => acc ++ [vTrimFilter ic.1 ic.2, aTrimFilter ic.1 ic.2]) acc
        = acc ++ (l.map (fun ic => [vTrimFilter ic.1 ic.2, aTrimFilter ic.1 ic.2])).flatten := by
    intro l
    induction l with
    | nil => intro acc; simp
    | cons ic l ih => intro acc; simp [ih]
  simpa [filterInputs] using h clips.enum []

theorem specFilterGraph_render (clips : List Clip) :
    (specFilterGraph clips).map renderFilterNode
      = (clips.enum.map (fun ic => [vTrimFilter ic.1 ic.2, aTrimFilter ic.1 ic.2])).flatten
        ++ [concatFilterOf clips.length] := by
  have h : ∀ l : List (Nat × Clip),
      ((l.map (fun ic => [FilterNode.vtrim ic.1 ic.2.start ic.2.duration,
          FilterNode.atrim ic.1 ic.2.start ic.2.duration])).flatten).map renderFilterNode
        = (l.map (fun ic => [vTrimFilter ic.1 ic.2, aTrimFilter ic.1 ic.2])).flatten := by
    intro l
    induction l with
    | nil => rfl
    | cons ic l ih => simp [ih, renderFilterNode, vTrimFilter, aTrimFilter]
  simp only [specFilterGraph, List.map_append, h clips.enum, List.map_cons, List.map_nil]
  rfl

/-- Claim C7: for a non-empty clip list of length N, the filter-graph
expression of the composition is exactly the rendering of a graph that holds,
for each clip i, a video trim of `[start, start+duration)` with timestamps
reset to zero and an audio trim of the same interval with timestamps reset
to zero, followed by one concat node joining all N trimmed video streams
and all N trimmed audio streams into one output video stream and one
output audio stream. -/
theorem claim_C7_trim_concat (clips : List Clip) (_h : clips ≠ []) :
    fullFilter clips = String.intercalate ";" ((specFilterGraph clips).map renderFilterNode) := by
  rw [fullFilter, filterInputs_eq, specFilterGraph_render]

theorem claim_C7_trim_concat_witness :
    ([Clip.mk "http://example.com/video1.mp4" "0" "5",
      Clip.mk "http://example.com/video2.mp4" "10" "5"] : List Clip) ≠ []
      ∧ fullFilter [Clip.mk "http://example.com/video1.mp4" "0" "5",
          Clip.mk "http://example.com/video2.mp4" "10" "5"]
        = String.intercalate ";"
            ((specFilterGraph [Clip.mk "http://example.com/video1.mp4" "0" "5",
               Clip.mk "http://example.com/video2.mp4" "10" "5"]).map renderFilterNode) :=
  ⟨by decide,
   claim_C7_trim_concat [Clip.mk "http://example.com/video1.mp4" "0" "5",
     Clip.mk "http://example.com/video2.mp4" "10" "5"] (by decide)⟩
